import Mathlib

/-
Verification of the cuckoo filter implemented in
credential-management/chaincode-go/smart-contract/cuckoofilter.go.

The embedding is shallow and executable:
* machine integers (`uint`, `uint64`) are `Nat` with `% 2^64` at the points
  where Go wraps (decrement of `Count`, the `n--`/`n++` of `GetNextPow2`,
  the mask construction of `NewFilter`);
* byte slices are `List Nat`; a fingerprint slot of length zero denotes an
  empty slot, exactly as in the Go code (nil and empty slices both have
  length 0 there);
* the external 64-bit hash (metro.Hash64 with fixed seed 1337, a third-party
  dependency whose source is not part of this repository) is an abstract
  parameter `H : HashFn`; every use site reduces it modulo 2^64, which is
  all the Go type guarantees.  The spec describes it only as a deterministic
  64-bit hash with a fixed seed;
* the pseudo-random choices of `randi` (which of the two candidate buckets
  to kick from) and `bucket.randomFingerprint` (which occupant to evict) are
  oracle parameters `rb : Nat → Bool` and `rs : Nat → Nat`, indexed by the
  iteration counter of the relocation loop; `rs` is reduced modulo the number
  of occupied slots, mirroring `rand.Intn(len(nonEmptyFingerprints))`;
* a Go panic (index out of range) is `none`; `Filter.Insert` and
  `Filter.Delete` therefore return `Option (Bool × Filter)` where
  `some (b, f')` means the Go call returned `b` leaving state `f'`;
* the overfill threshold `uint(float32(f.Capacity()) * 1.7)` is modelled as
  `capacity * 17 / 10`, which agrees with the float32 computation at all the
  small capacities used below (e.g. 4 ↦ 6, 8 ↦ 13, 16 ↦ 27).
-/

namespace Cuckoo

/-- A byte-level hash oracle standing for the external metro.Hash64 with the
fixed seed 1337. -/
abbrev HashFn := List Nat → Nat

/-- The 64-bit value of the external hash: the oracle reduced modulo 2^64. -/
def Hash64 (H : HashFn) (data : List Nat) : Nat :=
  H data % 2 ^ 64

/-- `const MaxCuckooKicks = 500`. -/
def MaxCuckooKicks : Nat := 500

/-- `const DefaultBucketSize = 4`. -/
def DefaultBucketSize : Nat := 4

/-- `const FingerPrintSize = 8`. -/
def FingerPrintSize : Nat := 8

/-- `type fingerprint []byte`; the empty list is the empty-slot marker. -/
abbrev Fingerprint := List Nat

/-- `type bucket struct { Data []fingerprint; size uint }`. -/
structure Bucket where
  Data : List Fingerprint
  size : Nat
  deriving DecidableEq, Repr

/-- `type Filter struct { Buckets []*bucket; Count uint; BucketIndexMask uint }`. -/
structure Filter where
  Buckets : List Bucket
  Count : Nat
  BucketIndexMask : Nat
  deriving DecidableEq, Repr

/-- `NewBucket`: a bucket with `size` empty slots. -/
def NewBucket (size : Nat) : Bucket :=
  { Data := List.replicate size [], size := size }

/-- `Filter.Capacity`: `uint(len(f.Buckets)) * DefaultBucketSize`. -/
def Filter.Capacity (f : Filter) : Nat :=
  f.Buckets.length * DefaultBucketSize % 2 ^ 64

/-- The overfill threshold `uint(float32(f.Capacity()) * 1.7)` of
`Filter.Insert`, modelled with exact rational arithmetic. -/
def Filter.overfillThreshold (f : Filter) : Nat :=
  f.Capacity * 17 / 10

/-- `equalFingerprints`: length check plus byte-wise comparison, i.e. list
equality. -/
def equalFingerprints (a b : Fingerprint) : Bool :=
  a == b

/-- `bucket.contains`: linear scan with `equalFingerprints`. -/
def Bucket.contains (b : Bucket) (needle : Fingerprint) : Bool :=
  b.Data.any fun fp => equalFingerprints fp needle

/-- `bucket.IsFull`: a bucket with no data is not full; otherwise full iff no
slot is empty. -/
def Bucket.IsFull (b : Bucket) : Bool :=
  b.Data.length != 0 && b.Data.all fun fp => fp.length != 0

/-- Helper for `bucket.Insert`: overwrite the first empty slot with (a copy
of) `fp`; `none` when every slot is occupied. -/
def replaceFirstEmpty : List Fingerprint → Fingerprint → Option (List Fingerprint)
  | [], _ => none
  | s :: rest, fp =>
    if s.length = 0 then some (fp :: rest)
    else (replaceFirstEmpty rest fp).map (s :: ·)

/-- `bucket.Insert`: succeeds iff an empty slot exists. -/
def Bucket.Insert (b : Bucket) (fp : Fingerprint) : Option Bucket :=
  (replaceFirstEmpty b.Data fp).map fun d => { b with Data := d }

/-- Helper for `bucket.delete`: blank out the first slot equal to `fp`. -/
def deleteFirst : List Fingerprint → Fingerprint → Option (List Fingerprint)
  | [], _ => none
  | s :: rest, fp =>
    if equalFingerprints s fp then some ([] :: rest)
    else (deleteFirst rest fp).map (s :: ·)

/-- `bucket.delete`: removes the first exact match, reporting success. -/
def Bucket.deleteFp (b : Bucket) (fp : Fingerprint) : Option Bucket :=
  (deleteFirst b.Data fp).map fun d => { b with Data := d }

/-- `bucket.reset`: `b.Data = make([]fingerprint, 0, len(b.Data))`, a
zero-length slice. -/
def Bucket.reset (b : Bucket) : Bucket :=
  { b with Data := [] }

/-- The indices of the occupied slots, in order, as collected by
`bucket.randomFingerprint`. -/
def nonEmptyIndices (l : List Fingerprint) : List Nat :=
  (List.range l.length).filter fun i => (l.getD i []).length != 0

/-- `bucket.randomFingerprint`: pick an occupied slot (the oracle `r` stands
for `rand.Intn`), return its fingerprint and blank the slot; returns the
empty fingerprint and the unchanged bucket when no slot is occupied. -/
def Bucket.randomFingerprint (b : Bucket) (r : Nat) : Fingerprint × Bucket :=
  let ne := nonEmptyIndices b.Data
  if ne.length = 0 then ([], b)
  else
    let idx := ne.getD (r % ne.length) 0
    (b.Data.getD idx [], { b with Data := b.Data.set idx [] })

/-- `GetFingerprint`: low-order bytes of the 64-bit hash, zero-padded beyond
8 bytes. -/
def GetFingerprint (H : HashFn) (data : List Nat) (fingerprintSize : Nat) : Fingerprint :=
  (List.range fingerprintSize).map fun i =>
    if i < 8 then Hash64 H data >>> (8 * i) % 256 else 0

/-- `GetAltIndex`: `(i ^ uint(hash64(fp, 1337))) & bucketIndexMask`. -/
def GetAltIndex (H : HashFn) (fp : Fingerprint) (i bucketIndexMask : Nat) : Nat :=
  (i ^^^ Hash64 H fp) &&& bucketIndexMask

/-- `GetIndexAndFingerprint`: primary index is the masked 64-bit hash of the
data; the fingerprint comes from `GetFingerprint`. -/
def GetIndexAndFingerprint (H : HashFn) (data : List Nat)
    (bucketIndexMask fingerprintSize : Nat) : Nat × Fingerprint :=
  (Hash64 H data &&& bucketIndexMask, GetFingerprint H data fingerprintSize)

/-- `GetNextPow2` on `uint64`: decrement (wrapping), smear the bits right,
increment (wrapping). -/
def GetNextPow2 (n : Nat) : Nat :=
  let m := (n + (2 ^ 64 - 1)) % 2 ^ 64
  let m := m ||| m >>> 1
  let m := m ||| m >>> 2
  let m := m ||| m >>> 4
  let m := m ||| m >>> 8
  let m := m ||| m >>> 16
  let m := m ||| m >>> 32
  (m + 1) % 2 ^ 64

/-- `NewFilter`: `GetNextPow2` many fresh buckets, zero count, and the
wrapping-uint mask `numBuckets - 1`. -/
def NewFilter (numElements bucketSize : Nat) : Filter :=
  let numBuckets := GetNextPow2 numElements
  { Buckets := List.replicate numBuckets (NewBucket bucketSize)
    Count := 0
    BucketIndexMask := (numBuckets + (2 ^ 64 - 1)) % 2 ^ 64 }

/-- `Filter.Lookup`: defensive bound checks, then `contains` on the two
candidate buckets. -/
def Filter.Lookup (f : Filter) (H : HashFn) (data : List Nat) : Bool :=
  if f.Buckets.length = 0 then false
  else
    let p := GetIndexAndFingerprint H data f.BucketIndexMask FingerPrintSize
    if p.1 ≥ f.Buckets.length then false
    else
      let i2 := GetAltIndex H p.2 p.1 f.BucketIndexMask
      if i2 ≥ f.Buckets.length then false
      else
        (f.Buckets.getD p.1 (NewBucket 0)).contains p.2 ||
          (f.Buckets.getD i2 (NewBucket 0)).contains p.2

/-- `Filter.tryInsert`: bounds-checked bucket insertion; `none` is Go's
`false` (no state change). -/
def Filter.tryInsert (f : Filter) (index : Nat) (fp : Fingerprint) : Option Filter :=
  match f.Buckets[index]? with
  | none => none
  | some b =>
    match b.Insert fp with
    | none => none
    | some b' => some { f with Buckets := f.Buckets.set index b' }

/-- The conditional `Count` increment of the direct-placement branch of
`Filter.Insert` (`if f.Count < overfillThreshold { f.Count++ }`). -/
def Filter.bumpCount (f : Filter) (threshold : Nat) : Filter :=
  if f.Count < threshold then { f with Count := (f.Count + 1) % 2 ^ 64 } else f

/-- The `for i := 0; i < MaxCuckooKicks; i++` relocation loop of
`Filter.Insert`.  `fuel` counts the remaining iterations, `n` the current
iteration (the index fed to the random oracles).  `none` models the panic of
the unchecked `f.Buckets[j]` access. -/
def kickLoop (H : HashFn) (rb : Nat → Bool) (rs : Nat → Nat) (i1 i2 : Nat)
    (fp : Fingerprint) (threshold mask : Nat) :
    Nat → Nat → Filter → Option (Bool × Filter)
  | 0, _, f => some (false, f)
  | fuel + 1, n, f =>
    if threshold ≤ f.Count then some (false, f)
    else
      let j := if rb n then i1 else i2
      match f.Buckets[j]? with
      | none => none
      | some bj =>
        if bj.IsFull then
          let r := bj.randomFingerprint (rs n)
          let f1 := { f with Buckets := f.Buckets.set j r.2 }
          match f1.tryInsert (GetAltIndex H r.1 j mask) r.1 with
          | some f2 =>
            match f2.tryInsert j fp with
            | some f3 => some (true, f3)
            | none => some (false, f2)
          | none => kickLoop H rb rs i1 i2 fp threshold mask fuel (n + 1) f1
        else
          match f.tryInsert j fp with
          | some f2 => some (true, { f2 with Count := (f2.Count + 1) % 2 ^ 64 })
          | none => kickLoop H rb rs i1 i2 fp threshold mask fuel (n + 1) f

/-- `Filter.Insert`: guard, direct two-choice placement, then the bounded
relocation loop. -/
def Filter.Insert (f : Filter) (H : HashFn) (rb : Nat → Bool) (rs : Nat → Nat)
    (data : List Nat) : Option (Bool × Filter) :=
  if data.length = 0 || 1024 < data.length || f.Lookup H data then some (false, f)
  else
    let threshold := f.overfillThreshold
    let p := GetIndexAndFingerprint H data f.BucketIndexMask FingerPrintSize
    let i2 := GetAltIndex H p.2 p.1 f.BucketIndexMask
    match f.tryInsert p.1 p.2 with
    | some f' => some (true, f'.bumpCount threshold)
    | none =>
      match f.tryInsert i2 p.2 with
      | some f' => some (true, f'.bumpCount threshold)
      | none => kickLoop H rb rs p.1 i2 p.2 threshold f.BucketIndexMask MaxCuckooKicks 0 f

/-- `Filter.Delete`: no bound check before indexing `f.Buckets[i1]` and
`f.Buckets[i2]`; `none` models the panic.  On success the `uint` count is
decremented (wrapping). -/
def Filter.Delete (f : Filter) (H : HashFn) (data : List Nat) :
    Option (Bool × Filter) :=
  let p := GetIndexAndFingerprint H data f.BucketIndexMask 8
  let i2 := GetAltIndex H p.2 p.1 f.BucketIndexMask
  match f.Buckets[p.1]? with
  | none => none
  | some b1 =>
    match b1.deleteFp p.2 with
    | some b1' =>
      some (true, { f with Buckets := f.Buckets.set p.1 b1',
                           Count := (f.Count + (2 ^ 64 - 1)) % 2 ^ 64 })
    | none =>
      match f.Buckets[i2]? with
      | none => none
      | some b2 =>
        match b2.deleteFp p.2 with
        | some b2' =>
          some (true, { f with Buckets := f.Buckets.set i2 b2',
                               Count := (f.Count + (2 ^ 64 - 1)) % 2 ^ 64 })
        | none => some (false, f)

/-- `Filter.Reset`: clear every bucket's slice and zero the count. -/
def Filter.Reset (f : Filter) : Filter :=
  { f with Buckets := f.Buckets.map Bucket.reset, Count := 0 }

/-- `serializeBuckets`: one inner sequence per bucket, one entry per slot. -/
def serializeBuckets (buckets : List Bucket) : List (List Fingerprint) :=
  buckets.map Bucket.Data

/-- `deserializeBuckets`: rebuild `&bucket{Data: bucketData}` (the unexported
`size` field is left at its zero value). -/
def deserializeBuckets (sb : List (List Fingerprint)) : List Bucket :=
  sb.map fun d => { Data := d, size := 0 }

/-- The fields written by `Filter.MarshalJSON`: the embedded alias (count and
mask) plus `SerializedBuckets`.  The byte-level JSON syntax produced by Go's
`encoding/json` (an external library) is modelled structurally. -/
structure EncodedFilter where
  SerializedBuckets : List (List Fingerprint)
  Count : Nat
  BucketIndexMask : Nat
  deriving DecidableEq, Repr

/-- `Filter.MarshalJSON`, structurally. -/
def Filter.MarshalJSON (f : Filter) : EncodedFilter :=
  { SerializedBuckets := serializeBuckets f.Buckets
    Count := f.Count
    BucketIndexMask := f.BucketIndexMask }

/-- `Filter.UnmarshalJSON` applied to a well-formed encoding: the alias
fields are taken over and `Buckets` is rebuilt from `SerializedBuckets`. -/
def EncodedFilter.UnmarshalJSON (e : EncodedFilter) : Filter :=
  { Buckets := deserializeBuckets e.SerializedBuckets
    Count := e.Count
    BucketIndexMask := e.BucketIndexMask }

/-! ### Statement helpers

Named components of the index/fingerprint computation of `Filter.Insert`,
`Filter.Lookup` and `Filter.Delete`, for use in theorem statements. -/

/-- The primary bucket index `i1` computed for `data` on filter `f`. -/
def Filter.primaryIndex (f : Filter) (H : HashFn) (data : List Nat) : Nat :=
  Hash64 H data &&& f.BucketIndexMask

/-- The fingerprint computed for `data` (fixed size 8). -/
def Filter.dataFingerprint (f : Filter) (H : HashFn) (data : List Nat) : Fingerprint :=
  GetFingerprint H data FingerPrintSize

/-- The alternate bucket index `i2` computed for `data` on filter `f`. -/
def Filter.altIndex (f : Filter) (H : HashFn) (data : List Nat) : Nat :=
  GetAltIndex H (f.dataFingerprint H data) (f.primaryIndex H data) f.BucketIndexMask

/-- The rejection guard of `Filter.Insert`, as a proposition. -/
def insertGuard (f : Filter) (H : HashFn) (data : List Nat) : Prop :=
  data.length = 0 ∨ 1024 < data.length ∨ f.Lookup H data = true

instance (f : Filter) (H : HashFn) (data : List Nat) :
    Decidable (insertGuard f H data) := by
  unfold insertGuard; infer_instance

/-! ### Concrete instances used by counterexamples and witnesses -/

/-- Hash values assigned to the one-byte payload `[k]` (the oracle returns
`k` itself) and, via `cexG`, to its 8-byte fingerprint `[k,0,…,0]`. -/
def cexG (k : Nat) : Nat :=
  if k = 21 then 2 else if k = 33 then 3 else k

/-- A concrete hash oracle: one-byte payloads hash to their value, longer
payloads (the 8-byte fingerprints) hash through `cexG`. -/
def cexHash : HashFn
  | [a] => a
  | a :: _ :: _ => cexG a
  | [] => 0

/-- Random oracle that always picks the first candidate bucket `i1`. -/
def rbT : Nat → Bool := fun _ => true

/-- Random oracle that always evicts the first occupied slot. -/
def rs0 : Nat → Nat := fun _ => 0

/-- Fold a list of payloads through `Filter.Insert` with the concrete
oracles, keeping the state of each successful call. -/
def insertAll (f : Filter) (items : List (List Nat)) : Filter :=
  items.foldl
    (fun g d =>
      match g.Insert cexHash rbT rs0 d with
      | some r => r.2
      | none => g) f

/-- A 2-bucket filter filled to capacity: bucket 1 holds the fingerprints of
`[1],[3],[5],[7]`, bucket 0 those of `[2],[4],[6],[8]`. -/
def cexBase2 : Filter :=
  insertAll (NewFilter 2 4) [[1], [2], [3], [4], [5], [6], [7], [8]]

/-- A 4-bucket filter whose buckets 0 and 1 are full while buckets 2 and 3
are empty. -/
def cexBase4 : Filter :=
  insertAll (NewFilter 4 4) [[33], [5], [9], [13], [4], [8], [12], [16]]

/-- A filter whose advisory `Count` sits exactly at the overfill threshold
(capacity 4, threshold 6) while its single bucket still has free slots. -/
def cexOverfill : Filter :=
  { Buckets := [NewBucket 4], Count := 6, BucketIndexMask := 0 }

/-- A filter at the overfill threshold whose single (one-slot) bucket is
occupied, so that both direct placements fail. -/
def cexFullAtThreshold : Filter :=
  { Buckets := [{ Data := [[7, 7]], size := 1 }], Count := 6, BucketIndexMask := 0 }

/-- A decodable-but-malformed filter state: two buckets but an index mask of
3, so the alternate index of `[21]` is out of range. -/
def cexMalformed : Filter :=
  { Buckets := [NewBucket 4, NewBucket 4], Count := 0, BucketIndexMask := 3 }

/-- A one-bucket filter holding exactly the fingerprint of `[1]`. -/
def cexDel : Filter :=
  { Buckets := [{ Data := [[1, 0, 0, 0, 0, 0, 0, 0]], size := 4 }]
    Count := 1, BucketIndexMask := 0 }

/-- State after inserting `[1]` into a fresh 2-bucket filter. -/
def cexOne : Filter := insertAll (NewFilter 2 4) [[1]]

/-- State after inserting `[1]` then `[2]`. -/
def cexTwo : Filter := insertAll (NewFilter 2 4) [[1], [2]]

/-! ### Interleaved operation traces

The operation surface over which the no-false-negatives claim quantifies:
`Insert` (with its two random oracles), `Delete`, and an encode-then-decode
round trip of the codec. -/

/-- One filter operation of an interleaved trace. -/
inductive FilterOp where
  | ins (rb : Nat → Bool) (rs : Nat → Nat) (data : List Nat)
  | del (data : List Nat)
  | codec

/-- Apply one operation to the in-memory filter, keeping the state a call
leaves behind; a panicking call (`none`, which produces no later state at
all) keeps the previous state. -/
def applyOp (H : HashFn) (f : Filter) : FilterOp → Filter
  | .ins rb rs data =>
    match f.Insert H rb rs data with
    | some r => r.2
    | none => f
  | .del data =>
    match f.Delete H data with
    | some r => r.2
    | none => f
  | .codec => f.MarshalJSON.UnmarshalJSON

/-- Apply a whole trace of operations, in order. -/
def applyOps (H : HashFn) (f : Filter) (ops : List FilterOp) : Filter :=
  ops.foldl (applyOp H) f

/-- The provisos of the amended no-false-negatives claim, for one operation
applied to state `f` while item `x` is protected: an `Insert` is either
rejected by the guard or can place its fingerprint directly into one of its
two home buckets (so it never enters the relocation loop); a `Delete` is of
a payload whose 8-byte fingerprint differs from `x`'s; the codec round trip
is always allowed. -/
def opOk (H : HashFn) (x : List Nat) (f : Filter) : FilterOp → Prop
  | .ins _ _ data =>
    insertGuard f H data ∨
      (f.tryInsert (f.primaryIndex H data) (f.dataFingerprint H data)).isSome
        = true ∨
      (f.tryInsert (f.altIndex H data) (f.dataFingerprint H data)).isSome
        = true
  | .del data => GetFingerprint H data 8 ≠ GetFingerprint H x 8
  | .codec => True

/-- A trace all of whose operations satisfy `opOk` at the state they are
applied to. -/
def directTrace (H : HashFn) (x : List Nat) : Filter → List FilterOp → Prop
  | _, [] => True
  | f, op :: rest => opOk H x f op ∧ directTrace H x (applyOp H f op) rest

end Cuckoo

namespace Cuckoo

/-! ### C10 -/

/-- C10: `Filter.Delete` performs no bound check before indexing, so on a
filter with an empty bucket list (e.g. built with `numElements = 0`) the
bucket access is out of bounds (modelled as `none`), whereas `Filter.Lookup`
on the same filter returns `false`. -/
theorem C10_delete_oob (H : HashFn) (data : List Nat) (f : Filter)
    (hb : f.Buckets = []) :
    f.Delete H data = none ∧ f.Lookup H data = false := by
  constructor
  · unfold Filter.Delete
    rw [hb]
    simp
  · unfold Filter.Lookup
    rw [hb]
    simp

/-- Witness for C10 at the filter built by `NewFilter 0 4`, whose bucket
list is empty. -/
theorem C10_witness :
    (NewFilter 0 4).Delete cexHash [1] = none ∧
      (NewFilter 0 4).Lookup cexHash [1] = false :=
  C10_delete_oob cexHash [1] (NewFilter 0 4) (by decide)

/-! ### C7 -/

/-- The codec round trip answers `Lookup` identically to the original
filter, for every query. -/
theorem marshal_roundtrip_lookup (f : Filter) (H : HashFn) (data : List Nat) :
    f.MarshalJSON.UnmarshalJSON.Lookup H data = f.Lookup H data := by
  have hb : f.MarshalJSON.UnmarshalJSON =
      { Buckets := f.Buckets.map fun b => { Data := b.Data, size := 0 }
        Count := f.Count, BucketIndexMask := f.BucketIndexMask } := by
    simp [Filter.MarshalJSON, EncodedFilter.UnmarshalJSON, serializeBuckets,
      deserializeBuckets, List.map_map]
  rw [hb]
  unfold Filter.Lookup
  simp only [List.length_map]
  by_cases h0 : f.Buckets.length = 0
  · simp [h0]
  · simp only [h0, if_false]
    by_cases h1 : (GetIndexAndFingerprint H data f.BucketIndexMask FingerPrintSize).1 ≥
        f.Buckets.length
    · simp [h1]
    · simp only [h1, if_false]
      by_cases h2 : GetAltIndex H
          (GetIndexAndFingerprint H data f.BucketIndexMask FingerPrintSize).2
          (GetIndexAndFingerprint H data f.BucketIndexMask FingerPrintSize).1
          f.BucketIndexMask ≥ f.Buckets.length
      · simp [h2]
      · simp only [h2, if_false]
        push_neg at h1 h2
        have key : ∀ i : Nat, i < f.Buckets.length → ∀ fp : Fingerprint,
            (((f.Buckets.map fun b => Bucket.mk b.Data 0).getD i
                (NewBucket 0)).contains fp) =
              ((f.Buckets.getD i (NewBucket 0)).contains fp) := by
          intro i hi fp
          rw [List.getD_eq_getElem?_getD, List.getD_eq_getElem?_getD,
            List.getElem?_map]
          cases hx : f.Buckets[i]? with
          | none =>
            rw [List.getElem?_eq_none_iff] at hx
            omega
          | some b => simp [Bucket.contains]
        rw [key _ h1, key _ h2]

/-- C7: decoding the encoding of any filter yields a filter that answers
`Lookup` identically — for every query, hence in particular for every
previously inserted element. -/
theorem C7_roundtrip (f : Filter) (H : HashFn) (data : List Nat) :
    f.MarshalJSON.UnmarshalJSON.Lookup H data = f.Lookup H data :=
  marshal_roundtrip_lookup f H data

/-! ### C5 -/

/-- C5: for every fingerprint, every mask of the form `2^k - 1` and every
in-range index `i1`, applying `GetAltIndex` twice returns to `i1`: the
XOR-with-the-fingerprint-hash construction is an involution on the pair of
home buckets, for every possible value of the external hash. -/
theorem C5_alt_index_involution (H : HashFn) (fp : Fingerprint) (k i1 : Nat)
    (h1 : i1 ≤ 2 ^ k - 1) :
    GetAltIndex H fp (GetAltIndex H fp i1 (2 ^ k - 1)) (2 ^ k - 1) = i1 := by
  have hpos : 0 < 2 ^ k := Nat.pos_pow_of_pos k (by norm_num)
  have hlt : i1 < 2 ^ k := by omega
  unfold GetAltIndex
  apply Nat.eq_of_testBit_eq
  intro j
  by_cases hj : j < k
  · simp only [Nat.testBit_and, Nat.testBit_xor, Nat.testBit_two_pow_sub_one,
      hj, decide_True, Bool.and_true]
    cases hb1 : i1.testBit j <;> cases hb2 : (Hash64 H fp).testBit j <;> rfl
  · have hbit : i1.testBit j = false := by
      apply Nat.testBit_lt_two_pow
      exact lt_of_lt_of_le hlt (Nat.pow_le_pow_right (by norm_num) (le_of_not_lt hj))
    simp only [Nat.testBit_and, Nat.testBit_xor, Nat.testBit_two_pow_sub_one,
      hj, decide_False, Bool.and_false, hbit]

/-- Witness for C5 at `k = 3`, `i1 = 3`, a constant hash oracle. -/
theorem C5_witness :
    3 ≤ 2 ^ 3 - 1 ∧
      GetAltIndex (fun _ => 5) [1, 2]
          (GetAltIndex (fun _ => 5) [1, 2] 3 (2 ^ 3 - 1)) (2 ^ 3 - 1) = 3 :=
  ⟨by decide, C5_alt_index_involution (fun _ => 5) [1, 2] 3 3 (by decide)⟩

/-! ### Structural lemmas -/

theorem getD_set_self {α : Type} (l : List α) (i : Nat) (a d : α)
    (h : i < l.length) : (l.set i a).getD i d = a := by
  rw [List.getD_eq_getElem?_getD, List.getElem?_set]
  simp [h]

theorem getD_set_ne {α : Type} (l : List α) (i j : Nat) (a d : α)
    (h : i ≠ j) : (l.set i a).getD j d = l.getD j d := by
  rw [List.getD_eq_getElem?_getD, List.getElem?_set, List.getD_eq_getElem?_getD]
  simp [h]

theorem getD_of_getElem? {α : Type} {l : List α} {i : Nat} {b : α} (d : α)
    (h : l[i]? = some b) : l.getD i d = b := by
  rw [List.getD_eq_getElem?_getD, h]
  rfl

theorem GetFingerprint_length (H : HashFn) (data : List Nat) (s : Nat) :
    (GetFingerprint H data s).length = s := by
  simp [GetFingerprint]

theorem dataFingerprint_length (f : Filter) (H : HashFn) (data : List Nat) :
    (f.dataFingerprint H data).length = 8 := by
  simp [Filter.dataFingerprint, GetFingerprint_length, FingerPrintSize]

theorem primaryIndex_le_mask (f : Filter) (H : HashFn) (data : List Nat) :
    f.primaryIndex H data ≤ f.BucketIndexMask :=
  Nat.and_le_right

theorem altIndex_le_mask (f : Filter) (H : HashFn) (data : List Nat) :
    f.altIndex H data ≤ f.BucketIndexMask :=
  Nat.and_le_right

theorem replaceFirstEmpty_any_self (l : List Fingerprint) (fp : Fingerprint) :
    ∀ l', replaceFirstEmpty l fp = some l' →
      l'.any (fun s => equalFingerprints s fp) = true := by
  induction l with
  | nil => intro l' h; simp [replaceFirstEmpty] at h
  | cons s rest ih =>
    intro l' h
    unfold replaceFirstEmpty at h
    by_cases hs : s.length = 0
    · rw [if_pos hs] at h
      cases h
      simp [equalFingerprints]
    · rw [if_neg hs] at h
      cases hrec : replaceFirstEmpty rest fp with
      | none => rw [hrec] at h; simp at h
      | some l'' =>
        rw [hrec] at h
        simp only [Option.map_some'] at h
        cases h
        simp [ih l'' hrec]

theorem replaceFirstEmpty_any_preserved (l : List Fingerprint)
    (fp g : Fingerprint) (hg : g.length ≠ 0) :
    ∀ l', replaceFirstEmpty l fp = some l' →
      l.any (fun s => equalFingerprints s g) = true →
      l'.any (fun s => equalFingerprints s g) = true := by
  induction l with
  | nil => intro l' h _; simp [replaceFirstEmpty] at h
  | cons s rest ih =>
    intro l' h hc
    unfold replaceFirstEmpty at h
    by_cases hs : s.length = 0
    · rw [if_pos hs] at h
      cases h
      have hnil : s = [] := List.length_eq_zero.mp hs
      have hsg : equalFingerprints s g = false := by
        subst hnil
        unfold equalFingerprints
        cases g with
        | nil => simp at hg
        | cons a t => rfl
      simp only [List.any_cons, hsg, Bool.false_or] at hc
      simp [hc]
    · rw [if_neg hs] at h
      cases hrec : replaceFirstEmpty rest fp with
      | none => rw [hrec] at h; simp at h
      | some l'' =>
        rw [hrec] at h
        simp only [Option.map_some'] at h
        cases h
        simp only [List.any_cons, Bool.or_eq_true] at hc ⊢
        rcases hc with hc | hc
        · exact Or.inl hc
        · exact Or.inr (ih l'' hrec hc)

theorem tryInsert_eq_some {f : Filter} {j : Nat} {fp : Fingerprint}
    {f' : Filter} (h : f.tryInsert j fp = some f') :
    ∃ b d', f.Buckets[j]? = some b ∧ replaceFirstEmpty b.Data fp = some d' ∧
      f' = { f with Buckets := f.Buckets.set j { b with Data := d' } } := by
  unfold Filter.tryInsert Bucket.Insert at h
  cases hb : f.Buckets[j]? with
  | none => rw [hb] at h; simp at h
  | some b =>
    rw [hb] at h
    dsimp only at h
    cases hd : replaceFirstEmpty b.Data fp with
    | none => rw [hd] at h; simp at h
    | some d' =>
      rw [hd] at h
      simp only [Option.map_some'] at h
      cases h
      exact ⟨b, d', rfl, hd, rfl⟩

theorem tryInsert_parts {f : Filter} {j : Nat} {fp : Fingerprint}
    {f' : Filter} (h : f.tryInsert j fp = some f') :
    f'.Buckets.length = f.Buckets.length ∧
      f'.BucketIndexMask = f.BucketIndexMask ∧ f'.Count = f.Count ∧
      j < f.Buckets.length := by
  obtain ⟨b, d', hb, _, hf⟩ := tryInsert_eq_some h
  subst hf
  refine ⟨List.length_set _ _ _, rfl, rfl, ?_⟩
  exact (List.getElem?_eq_some.mp hb).1

theorem tryInsert_contains_self {f : Filter} {j : Nat} {fp : Fingerprint}
    {f' : Filter} (h : f.tryInsert j fp = some f') :
    (f'.Buckets.getD j (NewBucket 0)).contains fp = true := by
  obtain ⟨b, d', hb, hd, hf⟩ := tryInsert_eq_some h
  subst hf
  have hj : j < f.Buckets.length := (List.getElem?_eq_some.mp hb).1
  rw [show ({ f with Buckets := f.Buckets.set j { b with Data := d' } } :
      Filter).Buckets = f.Buckets.set j { b with Data := d' } from rfl]
  rw [getD_set_self _ _ _ _ hj]
  unfold Bucket.contains
  exact replaceFirstEmpty_any_self b.Data fp d' hd

theorem tryInsert_preserves_contains {f : Filter} {j : Nat} {fp : Fingerprint}
    {f' : Filter} (h : f.tryInsert j fp = some f') (t : Nat) (g : Fingerprint)
    (hg : g.length ≠ 0)
    (hc : (f.Buckets.getD t (NewBucket 0)).contains g = true) :
    (f'.Buckets.getD t (NewBucket 0)).contains g = true := by
  obtain ⟨b, d', hb, hd, hf⟩ := tryInsert_eq_some h
  subst hf
  rw [show ({ f with Buckets := f.Buckets.set j { b with Data := d' } } :
      Filter).Buckets = f.Buckets.set j { b with Data := d' } from rfl]
  by_cases hjt : j = t
  · subst hjt
    have hj : j < f.Buckets.length := (List.getElem?_eq_some.mp hb).1
    rw [getD_set_self _ _ _ _ hj]
    rw [getD_of_getElem? (NewBucket 0) hb] at hc
    unfold Bucket.contains at hc ⊢
    exact replaceFirstEmpty_any_preserved b.Data fp g hg d' hd hc
  · rw [getD_set_ne _ _ _ _ _ hjt]
    exact hc

theorem Lookup_true_iff (f : Filter) (H : HashFn) (x : List Nat) :
    f.Lookup H x = true ↔
      0 < f.Buckets.length ∧ f.primaryIndex H x < f.Buckets.length ∧
        f.altIndex H x < f.Buckets.length ∧
        ((f.Buckets.getD (f.primaryIndex H x) (NewBucket 0)).contains
            (f.dataFingerprint H x) = true ∨
          (f.Buckets.getD (f.altIndex H x) (NewBucket 0)).contains
            (f.dataFingerprint H x) = true) := by
  unfold Filter.Lookup Filter.altIndex Filter.primaryIndex
    Filter.dataFingerprint GetIndexAndFingerprint GetAltIndex
  dsimp only
  by_cases h0 : f.Buckets.length = 0
  · simp [h0]
  · simp only [h0, if_false]
    by_cases h1 : Hash64 H x &&& f.BucketIndexMask ≥ f.Buckets.length
    · simp only [h1, if_true]
      constructor
      · intro hfalse; simp at hfalse
      · rintro ⟨_, hlt, _, _⟩; omega
    · simp only [h1, if_false]
      by_cases h2 : (Hash64 H x &&& f.BucketIndexMask ^^^
            Hash64 H (GetFingerprint H x FingerPrintSize)) &&& f.BucketIndexMask ≥
          f.Buckets.length
      · simp only [h2, if_true]
        constructor
        · intro hfalse; simp at hfalse
        · rintro ⟨_, _, hlt, _⟩; omega
      · simp only [h2, if_false, Bool.or_eq_true]
        constructor
        · intro hor
          exact ⟨by omega, by omega, by omega, hor⟩
        · rintro ⟨_, _, _, hor⟩
          exact hor

/-- Combined specification of the relocation loop: bucket-list length and
mask are preserved; a `false` return leaves `Count` unchanged; a `true`
return leaves the new fingerprint in one of its two home buckets. -/
theorem kickLoop_spec (H : HashFn) (rb : Nat → Bool) (rs : Nat → Nat)
    (i1 i2 : Nat) (fp : Fingerprint) (thr mask : Nat) :
    ∀ fuel n f b f',
      kickLoop H rb rs i1 i2 fp thr mask fuel n f = some (b, f') →
      f'.Buckets.length = f.Buckets.length ∧
        f'.BucketIndexMask = f.BucketIndexMask ∧
        (b = false → f'.Count = f.Count) ∧
        (b = true →
          ((f'.Buckets.getD i1 (NewBucket 0)).contains fp = true ∨
            (f'.Buckets.getD i2 (NewBucket 0)).contains fp = true)) := by
  intro fuel
  induction fuel with
  | zero =>
    intro n f b f' h
    unfold kickLoop at h
    simp only [Option.some.injEq, Prod.mk.injEq] at h
    obtain ⟨hb, hf⟩ := h
    subst hb; subst hf
    exact ⟨rfl, rfl, fun _ => rfl, fun ht => by simp at ht⟩
  | succ fuel ih =>
    intro n f b f' h
    unfold kickLoop at h
    by_cases hthr : thr ≤ f.Count
    · rw [if_pos hthr] at h
      simp only [Option.some.injEq, Prod.mk.injEq] at h
      obtain ⟨hb, hf⟩ := h
      subst hb; subst hf
      exact ⟨rfl, rfl, fun _ => rfl, fun ht => by simp at ht⟩
    · rw [if_neg hthr] at h
      dsimp only at h
      have hj : (if rb n then i1 else i2) = i1 ∨ (if rb n then i1 else i2) = i2 := by
        cases rb n <;> simp
      cases hbj : f.Buckets[if rb n then i1 else i2]? with
      | none => rw [hbj] at h; simp at h
      | some bj =>
        rw [hbj] at h
        dsimp only at h
        by_cases hfull : bj.IsFull = true
        · rw [if_pos hfull] at h
          cases halt : ({ f with
                Buckets := f.Buckets.set (if rb n then i1 else i2)
                  (bj.randomFingerprint (rs n)).2 } : Filter).tryInsert
              (GetAltIndex H (bj.randomFingerprint (rs n)).1
                (if rb n then i1 else i2) mask)
              (bj.randomFingerprint (rs n)).1 with
          | some f2 =>
            rw [halt] at h
            dsimp only at h
            cases hsec : f2.tryInsert (if rb n then i1 else i2) fp with
            | some f3 =>
              rw [hsec] at h
              simp only [Option.some.injEq, Prod.mk.injEq] at h
              obtain ⟨hb, hf⟩ := h
              subst hb; subst hf
              have p2 := tryInsert_parts halt
              have p3 := tryInsert_parts hsec
              refine ⟨?_, ?_, fun hfalse => by simp at hfalse, fun _ => ?_⟩
              · rw [p3.1, p2.1]; simp
              · rw [p3.2.1, p2.2.1]
              · have hc := tryInsert_contains_self hsec
                rcases hj with hj | hj <;> rw [hj] at hc
                · exact Or.inl hc
                · exact Or.inr hc
            | none =>
              rw [hsec] at h
              simp only [Option.some.injEq, Prod.mk.injEq] at h
              obtain ⟨hb, hf⟩ := h
              subst hb; subst hf
              have p2 := tryInsert_parts halt
              refine ⟨?_, ?_, fun _ => ?_, fun ht => by simp at ht⟩
              · rw [p2.1]; simp
              · rw [p2.2.1]
              · rw [p2.2.2.1]
          | none =>
            rw [halt] at h
            have := ih (n + 1) _ b f' h
            refine ⟨?_, ?_, fun hf => ?_, this.2.2.2⟩
            · rw [this.1]; simp
            · rw [this.2.1]
            · rw [this.2.2.1 hf]
        · rw [if_neg hfull] at h
          cases hdir : f.tryInsert (if rb n then i1 else i2) fp with
          | some f2 =>
            rw [hdir] at h
            simp only [Option.some.injEq, Prod.mk.injEq] at h
            obtain ⟨hb, hf⟩ := h
            subst hb; subst hf
            have p2 := tryInsert_parts hdir
            refine ⟨p2.1, p2.2.1, fun hfalse => by simp at hfalse, fun _ => ?_⟩
            have hc := tryInsert_contains_self hdir
            rcases hj with hj | hj <;> rw [hj] at hc
            · exact Or.inl hc
            · exact Or.inr hc
          | none =>
            rw [hdir] at h
            exact ih (n + 1) f b f' h

/-- `Filter.Insert` returns `(false, f)` unchanged when the guard rejects. -/
theorem Insert_eq_of_guard {f : Filter} {H : HashFn} {data : List Nat}
    (hg : insertGuard f H data) (rb : Nat → Bool) (rs : Nat → Nat) :
    f.Insert H rb rs data = some (false, f) := by
  unfold Filter.Insert
  have hcond : (data.length = 0 || 1024 < data.length || f.Lookup H data : Bool)
      = true := by
    rcases hg with hg | hg | hg <;> simp [hg]
  rw [hcond]
  rfl

/-- Reduction of `Filter.Insert` when the guard passes: direct placement at
the primary index, then at the alternate index, then the relocation loop. -/
theorem Insert_eq_of_not_guard {f : Filter} {H : HashFn} {data : List Nat}
    (hg : ¬ insertGuard f H data) (rb : Nat → Bool) (rs : Nat → Nat) :
    f.Insert H rb rs data =
      (match f.tryInsert (f.primaryIndex H data) (f.dataFingerprint H data) with
       | some f1 => some (true, f1.bumpCount f.overfillThreshold)
       | none =>
         match f.tryInsert (f.altIndex H data) (f.dataFingerprint H data) with
         | some f1 => some (true, f1.bumpCount f.overfillThreshold)
         | none =>
           kickLoop H rb rs (f.primaryIndex H data) (f.altIndex H data)
             (f.dataFingerprint H data) f.overfillThreshold f.BucketIndexMask
             MaxCuckooKicks 0 f) := by
  unfold Filter.Insert
  simp only [insertGuard, not_or] at hg
  obtain ⟨h1, h2, h3⟩ := hg
  have h3' : f.Lookup H data = false := by
    revert h3; cases f.Lookup H data <;> simp
  have hcond : (data.length = 0 || 1024 < data.length || f.Lookup H data : Bool)
      = false := by
    simp [h1, h2, h3']
  rw [hcond]
  simp only [Bool.false_eq_true, if_false]
  unfold Filter.primaryIndex Filter.altIndex Filter.dataFingerprint
    GetIndexAndFingerprint
  rfl

theorem bumpCount_parts (g : Filter) (t : Nat) :
    (g.bumpCount t).Buckets = g.Buckets ∧
      (g.bumpCount t).BucketIndexMask = g.BucketIndexMask := by
  unfold Filter.bumpCount
  split <;> exact ⟨rfl, rfl⟩

theorem primaryIndex_congr {f g : Filter} (h : g.BucketIndexMask = f.BucketIndexMask)
    (H : HashFn) (x : List Nat) : g.primaryIndex H x = f.primaryIndex H x := by
  unfold Filter.primaryIndex
  rw [h]

theorem dataFingerprint_congr (f g : Filter) (H : HashFn) (x : List Nat) :
    g.dataFingerprint H x = f.dataFingerprint H x := rfl

theorem altIndex_congr {f g : Filter} (h : g.BucketIndexMask = f.BucketIndexMask)
    (H : HashFn) (x : List Nat) : g.altIndex H x = f.altIndex H x := by
  unfold Filter.altIndex
  rw [h, dataFingerprint_congr f g, primaryIndex_congr h]

/-- A lookup that was true stays true after a successful direct placement
(`tryInsert`) followed by the conditional count bump: only an empty slot was
overwritten. -/
theorem lookup_preserved_of_tryInsert {f f1 : Filter} {j : Nat}
    {fpd : Fingerprint} (h1 : f.tryInsert j fpd = some f1) (t : Nat)
    (H : HashFn) (x : List Nat) (hx : f.Lookup H x = true) :
    (f1.bumpCount t).Lookup H x = true := by
  obtain ⟨hlen0, hp, ha, hor⟩ := (Lookup_true_iff f H x).mp hx
  have parts := tryInsert_parts h1
  have bparts := bumpCount_parts f1 t
  have hmask : (f1.bumpCount t).BucketIndexMask = f.BucketIndexMask := by
    rw [bparts.2, parts.2.1]
  have hlen : (f1.bumpCount t).Buckets.length = f.Buckets.length := by
    rw [bparts.1, parts.1]
  have hgne : (f.dataFingerprint H x).length ≠ 0 := by
    rw [dataFingerprint_length]; omega
  refine (Lookup_true_iff (f1.bumpCount t) H x).mpr ?_
  rw [primaryIndex_congr hmask, altIndex_congr hmask, dataFingerprint_congr f,
    hlen, bparts.1]
  refine ⟨by omega, hp, ha, ?_⟩
  rcases hor with hor | hor
  · exact Or.inl (tryInsert_preserves_contains h1 _ _ hgne hor)
  · exact Or.inr (tryInsert_preserves_contains h1 _ _ hgne hor)

/-- After any successful `Insert` on a well-formed filter (mask below bucket
count), the inserted payload's lookup is true. -/
theorem Insert_true_lookup {f : Filter} {H : HashFn} {rb : Nat → Bool}
    {rs : Nat → Nat} {data : List Nat} {f' : Filter}
    (hmask : f.BucketIndexMask < f.Buckets.length)
    (h : f.Insert H rb rs data = some (true, f')) :
    f'.Lookup H data = true := by
  have hlen0 : 0 < f.Buckets.length := by omega
  have hple : f.primaryIndex H data ≤ f.BucketIndexMask := primaryIndex_le_mask f H data
  have hale : f.altIndex H data ≤ f.BucketIndexMask := altIndex_le_mask f H data
  by_cases hg : insertGuard f H data
  · rw [Insert_eq_of_guard hg rb rs] at h
    simp at h
  · rw [Insert_eq_of_not_guard hg rb rs] at h
    cases h1 : f.tryInsert (f.primaryIndex H data) (f.dataFingerprint H data) with
    | some f1 =>
      rw [h1] at h
      simp only [Option.some.injEq, Prod.mk.injEq, true_and] at h
      subst h
      have parts := tryInsert_parts h1
      have bparts := bumpCount_parts f1 f.overfillThreshold
      have hmask' : (f1.bumpCount f.overfillThreshold).BucketIndexMask =
          f.BucketIndexMask := by rw [bparts.2, parts.2.1]
      refine (Lookup_true_iff _ H data).mpr ?_
      rw [primaryIndex_congr hmask', altIndex_congr hmask', dataFingerprint_congr f,
        bparts.1, parts.1]
      refine ⟨hlen0, by omega, by omega, Or.inl ?_⟩
      exact tryInsert_contains_self h1
    | none =>
      rw [h1] at h
      cases h2 : f.tryInsert (f.altIndex H data) (f.dataFingerprint H data) with
      | some f1 =>
        rw [h2] at h
        simp only [Option.some.injEq, Prod.mk.injEq, true_and] at h
        subst h
        have parts := tryInsert_parts h2
        have bparts := bumpCount_parts f1 f.overfillThreshold
        have hmask' : (f1.bumpCount f.overfillThreshold).BucketIndexMask =
            f.BucketIndexMask := by rw [bparts.2, parts.2.1]
        refine (Lookup_true_iff _ H data).mpr ?_
        rw [primaryIndex_congr hmask', altIndex_congr hmask', dataFingerprint_congr f,
          bparts.1, parts.1]
        refine ⟨hlen0, by omega, by omega, Or.inr ?_⟩
        exact tryInsert_contains_self h2
      | none =>
        rw [h2] at h
        have spec := kickLoop_spec H rb rs (f.primaryIndex H data)
          (f.altIndex H data) (f.dataFingerprint H data) f.overfillThreshold
          f.BucketIndexMask MaxCuckooKicks 0 f true f' h
        refine (Lookup_true_iff _ H data).mpr ?_
        rw [primaryIndex_congr spec.2.1, altIndex_congr spec.2.1,
          dataFingerprint_congr f, spec.1]
        exact ⟨hlen0, by omega, by omega, spec.2.2.2 rfl⟩

/-- C1 is false on the code: `[1]` is inserted successfully (first conjunct)
and never deleted — the trace `cexBase2` consists of inserts only — and its
lookup is still true after filling the filter; yet a later `Insert [9]` that
returns `true` evicts the fingerprint of `[1]` during cuckoo kicking (its
alternate bucket is full, so the evicted fingerprint is dropped), after
which `Lookup [1]` is false. -/
theorem C1_counterexample :
    ((NewFilter 2 4).Insert cexHash rbT rs0 [1]).map Prod.fst = some true ∧
      cexBase2.Lookup cexHash [1] = true ∧
      (cexBase2.Insert cexHash rbT rs0 [9]).map Prod.fst = some true ∧
      (cexBase2.Insert cexHash rbT rs0 [9]).map
          (fun r => r.2.Lookup cexHash [1]) = some false := by
  refine ⟨by decide, by decide, by decide, by decide⟩

/-- C2 is false on the code: on the full filter `cexBase2`, `Insert [9]`
with these random choices kicks the fingerprint of `[1]` out (dropping it,
since its alternate bucket is full) and then returns `false` — yet the
resulting state differs from the state before the call: the previously
inserted fingerprint of `[1]` is gone. -/
theorem C2_counterexample :
    (cexBase2.Insert cexHash (fun n => n == 0) rs0 [9]).map Prod.fst =
        some false ∧
      cexBase2.Lookup cexHash [1] = true ∧
      (cexBase2.Insert cexHash (fun n => n == 0) rs0 [9]).map
          (fun r => r.2.Lookup cexHash [1]) = some false ∧
      (cexBase2.Insert cexHash (fun n => n == 0) rs0 [9]).map Prod.snd ≠
        some cexBase2 := by
  refine ⟨by decide, by decide, by decide, by decide⟩

/-- C3 is false on the code: with `Count = 8` strictly below the overfill
threshold 27, `Insert [17]` succeeds through the relocation path (an
occupant of bucket 1 is re-housed in its empty alternate bucket 2 and the
new fingerprint takes its slot) and returns `true`, but `Count` stays 8:
the relocation-success return skips the increment. -/
theorem C3_counterexample :
    cexBase4.Count < cexBase4.overfillThreshold ∧
      (cexBase4.Insert cexHash rbT rs0 [17]).map Prod.fst = some true ∧
      (cexBase4.Insert cexHash rbT rs0 [17]).map (fun r => r.2.Count) =
        some cexBase4.Count := by
  refine ⟨by decide, by decide, by decide⟩

/-- C4 is false on the code: `cexOverfill` has `Count = 6`, exactly the
overfill threshold of its capacity 4, its lookup of `[1]` is false (valid,
non-duplicate input), yet `Insert [1]` returns `true`: the threshold is only
checked inside the relocation loop, not on the direct-placement path. -/
theorem C4_counterexample :
    cexOverfill.overfillThreshold ≤ cexOverfill.Count ∧
      cexOverfill.Lookup cexHash [1] = false ∧
      (cexOverfill.Insert cexHash rbT rs0 [1]).map Prod.fst = some true := by
  refine ⟨by decide, by decide, by decide⟩

/-- C6 is false as universally stated over every filter state: on the
(decodable) malformed state `cexMalformed`, whose mask 3 exceeds the bucket
count 2, the alternate index of `[21]` is out of range, so `Lookup` answers
`false` even after a successful insert; the second `Insert` of the same
payload therefore returns `true` again and increments `Count` from 1 to 2. -/
theorem C6_counterexample :
    (cexMalformed.Insert cexHash rbT rs0 [21]).map
        (fun r => (r.1, r.2.Count)) = some (true, 1) ∧
      ((cexMalformed.Insert cexHash rbT rs0 [21]).bind
          (fun r => r.2.Insert cexHash rbT rs0 [21])).map
        (fun r => (r.1, r.2.Count)) = some (true, 2) := by
  refine ⟨by decide, by decide⟩

/-- C8 is false at `n = 0`: the wrapping decrement makes `GetNextPow2 0`
return 0, which is smaller than 1 and hence not a power of two, and the
filter built from it has no buckets while its mask is `2^64 - 1`, not
`bucket count - 1`. -/
theorem C8_counterexample :
    GetNextPow2 0 = 0 ∧ GetNextPow2 0 < 1 ∧
      (NewFilter 0 4).Buckets.length = 0 ∧
      (NewFilter 0 4).BucketIndexMask = 2 ^ 64 - 1 ∧
      (NewFilter 0 4).BucketIndexMask ≠ (NewFilter 0 4).Buckets.length - 1 := by
  refine ⟨by decide, by decide, by decide, by decide, by decide⟩

/-! ### Amended claims -/

/-- A previously true lookup stays true across an `Insert` call that does
not enter the relocation loop — one rejected by the guard or placing its
fingerprint directly into one of its two home buckets. -/
theorem insert_direct_preserves_lookup (H : HashFn) (rb : Nat → Bool)
    (rs : Nat → Nat) (f : Filter) (data x : List Nat) (b : Bool) (f' : Filter)
    (hx : f.Lookup H x = true)
    (hno : insertGuard f H data ∨
      (f.tryInsert (f.primaryIndex H data) (f.dataFingerprint H data)).isSome
        = true ∨
      (f.tryInsert (f.altIndex H data) (f.dataFingerprint H data)).isSome
        = true)
    (hins : f.Insert H rb rs data = some (b, f')) :
    f'.Lookup H x = true := by
  by_cases hg : insertGuard f H data
  · rw [Insert_eq_of_guard hg rb rs] at hins
    simp only [Option.some.injEq, Prod.mk.injEq] at hins
    obtain ⟨_, hf⟩ := hins
    subst hf
    exact hx
  · rw [Insert_eq_of_not_guard hg rb rs] at hins
    cases h1 : f.tryInsert (f.primaryIndex H data) (f.dataFingerprint H data) with
    | some f1 =>
      rw [h1] at hins
      simp only [Option.some.injEq, Prod.mk.injEq] at hins
      obtain ⟨_, hf⟩ := hins
      subst hf
      exact lookup_preserved_of_tryInsert h1 _ H x hx
    | none =>
      rw [h1] at hins
      rcases hno with hno | hno | hno
      · exact absurd hno hg
      · rw [h1] at hno; simp at hno
      · obtain ⟨f1, h2⟩ := Option.isSome_iff_exists.mp hno
        rw [h2] at hins
        simp only [Option.some.injEq, Prod.mk.injEq] at hins
        obtain ⟨_, hf⟩ := hins
        subst hf
        exact lookup_preserved_of_tryInsert h2 _ H x hx

/-- An `Insert` satisfying the direct-placement proviso never panics: it
returns `some` result. -/
theorem insert_direct_isSome (H : HashFn) (rb : Nat → Bool) (rs : Nat → Nat)
    (f : Filter) (data : List Nat)
    (hno : insertGuard f H data ∨
      (f.tryInsert (f.primaryIndex H data) (f.dataFingerprint H data)).isSome
        = true ∨
      (f.tryInsert (f.altIndex H data) (f.dataFingerprint H data)).isSome
        = true) :
    (f.Insert H rb rs data).isSome = true := by
  by_cases hg : insertGuard f H data
  · rw [Insert_eq_of_guard hg rb rs]
    rfl
  · rw [Insert_eq_of_not_guard hg rb rs]
    cases h1 : f.tryInsert (f.primaryIndex H data) (f.dataFingerprint H data) with
    | some f1 => rfl
    | none =>
      rcases hno with hno | hno | hno
      · exact absurd hno hg
      · rw [h1] at hno; simp at hno
      · obtain ⟨f1, h2⟩ := Option.isSome_iff_exists.mp hno
        rw [h2]
        rfl

theorem deleteFp_eq_some {b : Bucket} {fp : Fingerprint} {b' : Bucket}
    (h : b.deleteFp fp = some b') :
    ∃ d', deleteFirst b.Data fp = some d' ∧ b' = { b with Data := d' } := by
  unfold Bucket.deleteFp at h
  cases hd : deleteFirst b.Data fp with
  | none => rw [hd] at h; simp at h
  | some d' =>
    rw [hd] at h
    simp only [Option.map_some', Option.some.injEq] at h
    exact ⟨d', rfl, h.symm⟩

/-- Blanking the first slot equal to `fpd` keeps every slot equal to a
*different* fingerprint `g`. -/
theorem deleteFirst_any_preserved (l : List Fingerprint) (fpd g : Fingerprint)
    (hg : g ≠ fpd) :
    ∀ l', deleteFirst l fpd = some l' →
      l.any (fun s => equalFingerprints s g) = true →
      l'.any (fun s => equalFingerprints s g) = true := by
  induction l with
  | nil => intro l' h _; simp [deleteFirst] at h
  | cons s rest ih =>
    intro l' h hc
    unfold deleteFirst at h
    by_cases hs : equalFingerprints s fpd = true
    · rw [if_pos hs] at h
      cases h
      have hseq : s = fpd := eq_of_beq hs
      simp only [List.any_cons, Bool.or_eq_true] at hc ⊢
      rcases hc with hc | hc
      · exfalso
        have hsg : s = g := eq_of_beq hc
        exact hg (hsg ▸ hseq ▸ rfl)
      · exact Or.inr hc
    · rw [if_neg hs] at h
      cases hrec : deleteFirst rest fpd with
      | none => rw [hrec] at h; simp at h
      | some l'' =>
        rw [hrec] at h
        simp only [Option.map_some'] at h
        cases h
        simp only [List.any_cons, Bool.or_eq_true] at hc ⊢
        rcases hc with hc | hc
        · exact Or.inl hc
        · exact Or.inr (ih l'' hrec hc)

/-- A `Delete` of a payload whose fingerprint differs from `x`'s preserves
a true lookup of `x`, whatever it returns. -/
theorem delete_preserves_lookup {f : Filter} {H : HashFn} {data : List Nat}
    {b : Bool} {g : Filter} (hdel : f.Delete H data = some (b, g))
    (x : List Nat)
    (hfp : GetFingerprint H data 8 ≠ f.dataFingerprint H x)
    (hx : f.Lookup H x = true) : g.Lookup H x = true := by
  obtain ⟨hlen0, hp, ha, hor⟩ := (Lookup_true_iff f H x).mp hx
  have key : ∀ (idx : Nat) (b0 : Bucket) (d' : List Fingerprint) (c : Nat),
      f.Buckets[idx]? = some b0 →
      deleteFirst b0.Data (GetFingerprint H data 8) = some d' →
      (Filter.mk (f.Buckets.set idx { b0 with Data := d' }) c
          f.BucketIndexMask).Lookup H x = true := by
    intro idx b0 d' c hb hd
    have hmask : (Filter.mk (f.Buckets.set idx { b0 with Data := d' }) c
        f.BucketIndexMask).BucketIndexMask = f.BucketIndexMask := rfl
    have hpres : ∀ t,
        (f.Buckets.getD t (NewBucket 0)).contains (f.dataFingerprint H x)
          = true →
        ((f.Buckets.set idx { b0 with Data := d' }).getD t
            (NewBucket 0)).contains (f.dataFingerprint H x) = true := by
      intro t hc
      by_cases hit : idx = t
      · subst hit
        have hlt : idx < f.Buckets.length := (List.getElem?_eq_some.mp hb).1
        rw [getD_set_self _ _ _ _ hlt]
        rw [getD_of_getElem? (NewBucket 0) hb] at hc
        unfold Bucket.contains at hc ⊢
        exact deleteFirst_any_preserved b0.Data (GetFingerprint H data 8)
          (f.dataFingerprint H x) (Ne.symm hfp) d' hd hc
      · rw [getD_set_ne _ _ _ _ _ hit]
        exact hc
    refine (Lookup_true_iff _ H x).mpr ?_
    rw [primaryIndex_congr hmask, altIndex_congr hmask, dataFingerprint_congr f]
    refine ⟨?_, ?_, ?_, ?_⟩
    · show 0 < (f.Buckets.set idx { b0 with Data := d' }).length
      rw [List.length_set]
      omega
    · show f.primaryIndex H x < (f.Buckets.set idx { b0 with Data := d' }).length
      rw [List.length_set]
      omega
    · show f.altIndex H x < (f.Buckets.set idx { b0 with Data := d' }).length
      rw [List.length_set]
      omega
    · rcases hor with hor | hor
      · exact Or.inl (hpres _ hor)
      · exact Or.inr (hpres _ hor)
  unfold Filter.Delete GetIndexAndFingerprint at hdel
  dsimp only at hdel
  cases hb1 : f.Buckets[Hash64 H data &&& f.BucketIndexMask]? with
  | none => rw [hb1] at hdel; simp at hdel
  | some b1 =>
    rw [hb1] at hdel
    dsimp only at hdel
    cases hd1 : b1.deleteFp (GetFingerprint H data 8) with
    | some b1' =>
      rw [hd1] at hdel
      simp only [Option.some.injEq, Prod.mk.injEq] at hdel
      obtain ⟨_, hgeq⟩ := hdel
      obtain ⟨d', hdf, hb'⟩ := deleteFp_eq_some hd1
      subst hb'
      rw [← hgeq]
      exact key _ b1 d' _ hb1 hdf
    | none =>
      rw [hd1] at hdel
      dsimp only at hdel
      cases hb2 : f.Buckets[GetAltIndex H (GetFingerprint H data 8)
          (Hash64 H data &&& f.BucketIndexMask) f.BucketIndexMask]? with
      | none => rw [hb2] at hdel; simp at hdel
      | some b2 =>
        rw [hb2] at hdel
        dsimp only at hdel
        cases hd2 : b2.deleteFp (GetFingerprint H data 8) with
        | some b2' =>
          rw [hd2] at hdel
          simp only [Option.some.injEq, Prod.mk.injEq] at hdel
          obtain ⟨_, hgeq⟩ := hdel
          obtain ⟨d', hdf, hb'⟩ := deleteFp_eq_some hd2
          subst hb'
          rw [← hgeq]
          exact key _ b2 d' _ hb2 hdf
        | none =>
          rw [hd2] at hdel
          simp only [Option.some.injEq, Prod.mk.injEq] at hdel
          obtain ⟨_, hgeq⟩ := hdel
          rw [← hgeq]
          exact hx

/-- One step of an `opOk` trace preserves a true lookup of `x`. -/
theorem applyOp_preserves_lookup (H : HashFn) (x : List Nat) (f : Filter)
    (op : FilterOp) (hok : opOk H x f op) (hx : f.Lookup H x = true) :
    (applyOp H f op).Lookup H x = true := by
  cases op with
  | ins rb rs data =>
    have hno : insertGuard f H data ∨
        (f.tryInsert (f.primaryIndex H data)
          (f.dataFingerprint H data)).isSome = true ∨
        (f.tryInsert (f.altIndex H data)
          (f.dataFingerprint H data)).isSome = true := hok
    obtain ⟨r, hr⟩ :=
      Option.isSome_iff_exists.mp (insert_direct_isSome H rb rs f data hno)
    show (match f.Insert H rb rs data with
      | some r => r.2
      | none => f).Lookup H x = true
    rw [hr]
    exact insert_direct_preserves_lookup H rb rs f data x r.1 r.2 hx hno
      (by rw [hr])
  | del data =>
    have hne : GetFingerprint H data 8 ≠ f.dataFingerprint H x := hok
    show (match f.Delete H data with
      | some r => r.2
      | none => f).Lookup H x = true
    cases hdel : f.Delete H data with
    | none => exact hx
    | some r =>
      obtain ⟨bb, g⟩ := r
      exact delete_preserves_lookup hdel x hne hx
  | codec =>
    show f.MarshalJSON.UnmarshalJSON.Lookup H x = true
    rw [marshal_roundtrip_lookup]
    exact hx

/-- C1, amended: for every item `x` whose `Insert` returned true on a
well-formed filter (mask below bucket count), `Lookup x` returns true at
every later point of any interleaved trace of Insert, Delete and
encode/decode operations, provided every intervening `Insert` is rejected
by the guard or places its fingerprint directly (never entering the
relocation loop) and every intervening `Delete` is of a payload whose
8-byte fingerprint differs from `x`'s (in particular, no `Delete x`).
Without the relocation proviso a kicking insert can evict `x`'s
fingerprint (the counterexample); without the fingerprint proviso a delete
of a hash-colliding payload can remove it. -/
theorem C1_amended (H : HashFn) (rb : Nat → Bool) (rs : Nat → Nat)
    (f f0 : Filter) (x : List Nat)
    (hmask : f.BucketIndexMask < f.Buckets.length)
    (hins : f.Insert H rb rs x = some (true, f0)) :
    ∀ ops : List FilterOp, directTrace H x f0 ops →
      (applyOps H f0 ops).Lookup H x = true := by
  have hx : f0.Lookup H x = true := Insert_true_lookup hmask hins
  have main : ∀ (ops : List FilterOp) (g : Filter), g.Lookup H x = true →
      directTrace H x g ops → (applyOps H g ops).Lookup H x = true := by
    intro ops
    induction ops with
    | nil =>
      intro g hg _
      exact hg
    | cons op rest ih =>
      intro g hg htr
      obtain ⟨hok, hrest⟩ := htr
      exact ih (applyOp H g op) (applyOp_preserves_lookup H x g op hok hg) hrest
  intro ops htr
  exact main ops f0 hx htr

/-- Witness for the amended C1: after inserting `[1]`, the trace
insert `[2]`, delete `[2]` (a successful delete of a different payload),
encode-decode still finds `[1]`. -/
theorem C1_witness :
    (applyOps cexHash cexOne
        [FilterOp.ins rbT rs0 [2], FilterOp.del [2],
          FilterOp.codec]).Lookup cexHash [1] = true :=
  C1_amended cexHash rbT rs0 (NewFilter 2 4) cexOne [1] (by decide) (by decide)
    [FilterOp.ins rbT rs0 [2], FilterOp.del [2], FilterOp.codec]
    ⟨Or.inr (Or.inl (by decide)),
      (by show GetFingerprint cexHash [2] 8 ≠ GetFingerprint cexHash [1] 8
          decide),
      trivial, trivial⟩

/-- C2, amended: a failed `Insert` never changes `Count`, and a failure at
the guard leaves the filter completely unchanged.  (The counterexample
shows a failure out of the relocation loop can leave an evicted fingerprint
dropped, so full bucket-state atomicity does not hold.) -/
theorem C2_amended (H : HashFn) (rb : Nat → Bool) (rs : Nat → Nat) (f : Filter)
    (data : List Nat) (f' : Filter)
    (hins : f.Insert H rb rs data = some (false, f')) :
    f'.Count = f.Count ∧ (insertGuard f H data → f' = f) := by
  by_cases hg : insertGuard f H data
  · rw [Insert_eq_of_guard hg rb rs] at hins
    simp only [Option.some.injEq, Prod.mk.injEq, true_and] at hins
    subst hins
    exact ⟨rfl, fun _ => rfl⟩
  · rw [Insert_eq_of_not_guard hg rb rs] at hins
    cases h1 : f.tryInsert (f.primaryIndex H data) (f.dataFingerprint H data) with
    | some f1 => rw [h1] at hins; simp at hins
    | none =>
      rw [h1] at hins
      cases h2 : f.tryInsert (f.altIndex H data) (f.dataFingerprint H data) with
      | some f1 => rw [h2] at hins; simp at hins
      | none =>
        rw [h2] at hins
        have spec := kickLoop_spec H rb rs (f.primaryIndex H data)
          (f.altIndex H data) (f.dataFingerprint H data) f.overfillThreshold
          f.BucketIndexMask MaxCuckooKicks 0 f false f' hins
        exact ⟨spec.2.2.1 rfl, fun hgg => absurd hgg hg⟩

/-- The state left behind by the failing insert of the C2 counterexample. -/
def cexAfterFail : Filter :=
  match cexBase2.Insert cexHash (fun n => n == 0) rs0 [9] with
  | some r => r.2
  | none => cexBase2

/-- Witness for the amended C2 on the concrete failing insert. -/
theorem C2_witness :
    cexAfterFail.Count = cexBase2.Count ∧
      (insertGuard cexBase2 cexHash [9] → cexAfterFail = cexBase2) :=
  C2_amended cexHash (fun n => n == 0) rs0 cexBase2 [9] cexAfterFail (by decide)

/-- C3, amended: an `Insert` that succeeds by *direct placement* while
`Count` is below the overfill threshold increments `Count` by exactly one,
and a successful `Delete` decrements it by exactly one (as a wrapping
`uint`); but — per the counterexample — an insert that succeeds through the
relocation path returns `true` without touching `Count`. -/
theorem C3_amended (H : HashFn) (rb : Nat → Bool) (rs : Nat → Nat) (f : Filter)
    (data : List Nat) :
    (¬ insertGuard f H data →
      ((f.tryInsert (f.primaryIndex H data) (f.dataFingerprint H data)).isSome
          = true ∨
        (f.tryInsert (f.altIndex H data) (f.dataFingerprint H data)).isSome
          = true) →
      f.Count < f.overfillThreshold → f.Count + 1 < 2 ^ 64 →
      ∃ f', f.Insert H rb rs data = some (true, f') ∧
        f'.Count = f.Count + 1) ∧
    (∀ g, f.Delete H data = some (true, g) → 0 < f.Count → f.Count < 2 ^ 64 →
      g.Count = f.Count - 1) := by
  have h64 : (2 : Nat) ^ 64 = 18446744073709551616 := by norm_num
  constructor
  · intro hg hsome hlt hbound
    rw [Insert_eq_of_not_guard hg rb rs]
    cases h1 : f.tryInsert (f.primaryIndex H data) (f.dataFingerprint H data) with
    | some f1 =>
      refine ⟨f1.bumpCount f.overfillThreshold, rfl, ?_⟩
      have hc : f1.Count = f.Count := (tryInsert_parts h1).2.2.1
      unfold Filter.bumpCount
      rw [hc, if_pos hlt]
      exact Nat.mod_eq_of_lt hbound
    | none =>
      rcases hsome with hs | hs
      · rw [h1] at hs; simp at hs
      · obtain ⟨f1, h2⟩ := Option.isSome_iff_exists.mp hs
        rw [h2]
        refine ⟨f1.bumpCount f.overfillThreshold, rfl, ?_⟩
        have hc : f1.Count = f.Count := (tryInsert_parts h2).2.2.1
        unfold Filter.bumpCount
        rw [hc, if_pos hlt]
        exact Nat.mod_eq_of_lt hbound
  · intro g hdel h0 hlt
    unfold Filter.Delete GetIndexAndFingerprint at hdel
    dsimp only at hdel
    cases hb1 : f.Buckets[Hash64 H data &&& f.BucketIndexMask]? with
    | none => rw [hb1] at hdel; simp at hdel
    | some b1 =>
      rw [hb1] at hdel
      dsimp only at hdel
      cases hd1 : b1.deleteFp (GetFingerprint H data 8) with
      | some b1' =>
        rw [hd1] at hdel
        simp only [Option.some.injEq, Prod.mk.injEq, true_and] at hdel
        subst hdel
        show (f.Count + (2 ^ 64 - 1)) % 2 ^ 64 = f.Count - 1
        omega
      | none =>
        rw [hd1] at hdel
        dsimp only at hdel
        cases hb2 : f.Buckets[GetAltIndex H (GetFingerprint H data 8)
            (Hash64 H data &&& f.BucketIndexMask) f.BucketIndexMask]? with
        | none => rw [hb2] at hdel; simp at hdel
        | some b2 =>
          rw [hb2] at hdel
          dsimp only at hdel
          cases hd2 : b2.deleteFp (GetFingerprint H data 8) with
          | some b2' =>
            rw [hd2] at hdel
            simp only [Option.some.injEq, Prod.mk.injEq, true_and] at hdel
            subst hdel
            show (f.Count + (2 ^ 64 - 1)) % 2 ^ 64 = f.Count - 1
            omega
          | none =>
            rw [hd2] at hdel
            simp at hdel

/-- The state left behind by deleting `[1]` from `cexDel`. -/
def cexDelAfter : Filter :=
  { Buckets := [{ Data := [[]], size := 4 }], Count := 0, BucketIndexMask := 0 }

/-- Witness for the amended C3: a direct insert bumps `Count` 0 → 1, and
the concrete delete drops `Count` 1 → 0. -/
theorem C3_witness :
    (∃ f', (NewFilter 2 4).Insert cexHash rbT rs0 [1] = some (true, f') ∧
        f'.Count = (NewFilter 2 4).Count + 1) ∧
      cexDelAfter.Count = cexDel.Count - 1 :=
  ⟨(C3_amended cexHash rbT rs0 (NewFilter 2 4) [1]).1 (by decide)
      (Or.inl (by decide)) (by decide) (by decide),
    (C3_amended cexHash rbT rs0 cexDel [1]).2 cexDelAfter (by decide)
      (by decide) (by decide)⟩

/-- C4, amended: once `Count` has reached the overfill threshold the
*relocation loop* refuses immediately, so an insert whose two direct
placements fail returns `false` with no state change; a direct placement
that succeeds, however, is still accepted at or above the threshold (the
counterexample), merely without incrementing `Count`. -/
theorem C4_amended (H : HashFn) (rb : Nat → Bool) (rs : Nat → Nat) (f : Filter)
    (data : List Nat)
    (hg : ¬ insertGuard f H data)
    (hthr : f.overfillThreshold ≤ f.Count)
    (h1 : f.tryInsert (f.primaryIndex H data) (f.dataFingerprint H data) = none)
    (h2 : f.tryInsert (f.altIndex H data) (f.dataFingerprint H data) = none) :
    f.Insert H rb rs data = some (false, f) := by
  rw [Insert_eq_of_not_guard hg rb rs, h1, h2]
  dsimp only
  have h500 : MaxCuckooKicks = 499 + 1 := rfl
  rw [h500]
  unfold kickLoop
  rw [if_pos hthr]

/-- Witness for the amended C4 on `cexFullAtThreshold`. -/
theorem C4_witness :
    cexFullAtThreshold.Insert cexHash rbT rs0 [1] =
      some (false, cexFullAtThreshold) :=
  C4_amended cexHash rbT rs0 cexFullAtThreshold [1] (by decide) (by decide)
    (by decide) (by decide)

/-- C6, amended: the guard rejection (empty payload, payload longer than
1024 bytes, or a payload that already looks up as present) returns `false`
with no mutation; and on a *well-formed* filter (mask below bucket count) a
successful insert makes the payload look up as present, so a second insert
of the same payload fails with no mutation.  (On a malformed filter — the
counterexample — the second insert can succeed again.) -/
theorem C6_amended (H : HashFn) (rb : Nat → Bool) (rs : Nat → Nat) (f : Filter)
    (data : List Nat) :
    (insertGuard f H data → f.Insert H rb rs data = some (false, f)) ∧
    (f.BucketIndexMask < f.Buckets.length →
      ∀ f', f.Insert H rb rs data = some (true, f') →
        ∀ rb' rs', f'.Insert H rb' rs' data = some (false, f')) := by
  constructor
  · intro hg
    exact Insert_eq_of_guard hg rb rs
  · intro hmask f' hins rb' rs'
    have hlk : f'.Lookup H data = true := Insert_true_lookup hmask hins
    exact Insert_eq_of_guard (Or.inr (Or.inr hlk)) rb' rs'

/-- Witness for the amended C6: the empty payload is rejected unchanged,
and re-inserting `[1]` right after its successful insert fails unchanged. -/
theorem C6_witness :
    ((NewFilter 2 4).Insert cexHash rbT rs0 [] = some (false, NewFilter 2 4)) ∧
      cexOne.Insert cexHash rbT rs0 [1] = some (false, cexOne) :=
  ⟨(C6_amended cexHash rbT rs0 (NewFilter 2 4) []).1 (Or.inl rfl),
    (C6_amended cexHash rbT rs0 (NewFilter 2 4) [1]).2 (by decide) cexOne
      (by decide) rbT rs0⟩

/-! ### C9 -/

theorem getElem?_of_lt_getD {α : Type} (l : List α) (i : Nat) (d : α)
    (h : i < l.length) : l[i]? = some (l.getD i d) := by
  rw [List.getD_eq_getElem?_getD]
  cases hx : l[i]? with
  | none =>
    rw [List.getElem?_eq_none_iff] at hx
    omega
  | some a => rfl

theorem reset_bucket_empty (f : Filter) (j : Nat) (b : Bucket)
    (h : f.Reset.Buckets[j]? = some b) : b.Data = [] := by
  unfold Filter.Reset at h
  dsimp only at h
  rw [List.getElem?_map] at h
  cases hb : f.Buckets[j]? with
  | none => rw [hb] at h; simp at h
  | some b0 =>
    rw [hb] at h
    simp only [Option.map_some', Option.some.injEq] at h
    subst h
    rfl

theorem reset_tryInsert_none (f : Filter) (j : Nat) (fp : Fingerprint) :
    f.Reset.tryInsert j fp = none := by
  unfold Filter.tryInsert
  cases hb : f.Reset.Buckets[j]? with
  | none => rfl
  | some b =>
    have hD : b.Data = [] := reset_bucket_empty f j b hb
    dsimp only
    unfold Bucket.Insert
    rw [hD]
    rfl

theorem reset_lookup_false (f : Filter) (H : HashFn) (data : List Nat) :
    f.Reset.Lookup H data = false := by
  cases hl : f.Reset.Lookup H data with
  | false => rfl
  | true =>
    exfalso
    obtain ⟨hlen, hp, ha, hor⟩ := (Lookup_true_iff _ H data).mp hl
    rcases hor with hor | hor
    · have hb := getElem?_of_lt_getD f.Reset.Buckets _ (NewBucket 0) hp
      have hD := reset_bucket_empty f _ _ hb
      unfold Bucket.contains at hor
      rw [hD] at hor
      simp at hor
    · have hb := getElem?_of_lt_getD f.Reset.Buckets _ (NewBucket 0) ha
      have hD := reset_bucket_empty f _ _ hb
      unfold Bucket.contains at hor
      rw [hD] at hor
      simp at hor

theorem kickLoop_reset (f : Filter) (H : HashFn) (rb : Nat → Bool)
    (rs : Nat → Nat) (i1 i2 : Nat) (fp : Fingerprint) (thr mask : Nat)
    (hi1 : i1 < f.Reset.Buckets.length) (hi2 : i2 < f.Reset.Buckets.length) :
    ∀ fuel n, kickLoop H rb rs i1 i2 fp thr mask fuel n f.Reset =
      some (false, f.Reset) := by
  intro fuel
  induction fuel with
  | zero => intro n; rfl
  | succ fuel ih =>
    intro n
    unfold kickLoop
    by_cases hthr : thr ≤ f.Reset.Count
    · rw [if_pos hthr]
    · rw [if_neg hthr]
      dsimp only
      have hj : (if rb n then i1 else i2) < f.Reset.Buckets.length := by
        cases rb n <;> simpa
      cases hbj : f.Reset.Buckets[if rb n then i1 else i2]? with
      | none =>
        exfalso
        rw [List.getElem?_eq_none_iff] at hbj
        omega
      | some bj =>
        dsimp only
        have hD : bj.Data = [] := reset_bucket_empty f _ bj hbj
        have hfull : bj.IsFull = false := by
          unfold Bucket.IsFull
          rw [hD]
          rfl
        rw [hfull]
        simp only [Bool.false_eq_true, if_false]
        rw [reset_tryInsert_none f _ fp]
        exact ih (n + 1)

/-- C9: after `Filter.Reset`, every subsequent `Insert` on a well-formed
filter (mask below bucket count) returns `false` and leaves the reset state
unchanged — so the failure is permanent: reset buckets have zero-length
slot slices that `bucket.Insert` can never fill. -/
theorem C9_reset_insert (H : HashFn) (rb : Nat → Bool) (rs : Nat → Nat)
    (f : Filter) (data : List Nat)
    (hmask : f.BucketIndexMask < f.Buckets.length) :
    f.Reset.Insert H rb rs data = some (false, f.Reset) := by
  have hlen : f.Reset.Buckets.length = f.Buckets.length := by
    unfold Filter.Reset
    simp
  have hmask' : f.Reset.BucketIndexMask = f.BucketIndexMask := rfl
  by_cases hg : insertGuard f.Reset H data
  · exact Insert_eq_of_guard hg rb rs
  · rw [Insert_eq_of_not_guard hg rb rs]
    rw [reset_tryInsert_none f _ _]
    dsimp only
    rw [reset_tryInsert_none f _ _]
    dsimp only
    apply kickLoop_reset
    · have := primaryIndex_le_mask f.Reset H data
      omega
    · have := altIndex_le_mask f.Reset H data
      omega

/-- Witness for C9 on the concrete filled filter `cexBase2`. -/
theorem C9_witness :
    cexBase2.Reset.Insert cexHash rbT rs0 [1] = some (false, cexBase2.Reset) :=
  C9_reset_insert cexHash rbT rs0 cexBase2 [1] (by decide)

/-! ### C8 -/

theorem window_one (m : Nat) :
    ∀ j, m.testBit j = true ↔ ∃ d, d < 1 ∧ m.testBit (j + d) = true := by
  intro j
  constructor
  · intro h
    exact ⟨0, by omega, by simpa using h⟩
  · rintro ⟨d, hd, h⟩
    have hd0 : d = 0 := by omega
    subst hd0
    simpa using h

theorem window_step {m x c c2 : Nat} (hc : c2 = 2 * c)
    (hx : ∀ j, x.testBit j = true ↔ ∃ d, d < c ∧ m.testBit (j + d) = true) :
    ∀ j, (x ||| x >>> c).testBit j = true ↔
      ∃ d, d < c2 ∧ m.testBit (j + d) = true := by
  subst hc
  intro j
  rw [Nat.testBit_or, Nat.testBit_shiftRight, Bool.or_eq_true]
  constructor
  · rintro (h | h)
    · obtain ⟨d, hd, hb⟩ := (hx j).mp h
      exact ⟨d, by omega, hb⟩
    · obtain ⟨d, hd, hb⟩ := (hx (c + j)).mp h
      refine ⟨c + d, by omega, ?_⟩
      rw [show j + (c + d) = c + j + d by omega]
      exact hb
  · rintro ⟨d, hd, hb⟩
    by_cases hdc : d < c
    · exact Or.inl ((hx j).mpr ⟨d, hdc, hb⟩)
    · refine Or.inr ((hx (c + j)).mpr ⟨d - c, by omega, ?_⟩)
      rw [show c + j + (d - c) = j + d by omega]
      exact hb

theorem testBit_ge_two_pow {m i : Nat} (h : m.testBit i = true) : 2 ^ i ≤ m := by
  by_contra hlt
  push_neg at hlt
  rw [Nat.testBit_lt_two_pow hlt] at h
  simp at h

/-- Any value whose bits saturate every 64-wide window of `m0` (as the six
or-shift steps of `GetNextPow2` produce) equals `2 ^ size m0 - 1`. -/
theorem smear64_eq (m0 x : Nat) (hm : m0 < 2 ^ 63)
    (hx : ∀ j, x.testBit j = true ↔ ∃ d, d < 64 ∧ m0.testBit (j + d) = true) :
    x = 2 ^ Nat.size m0 - 1 := by
  apply Nat.eq_of_testBit_eq
  intro j
  rw [Nat.testBit_two_pow_sub_one]
  cases hbt : x.testBit j with
  | true =>
    obtain ⟨d, hd, hb⟩ := (hx j).mp hbt
    have hle : 2 ^ (j + d) ≤ m0 := testBit_ge_two_pow hb
    have hj : j < Nat.size m0 :=
      Nat.lt_size.mpr
        (le_trans (Nat.pow_le_pow_right (by norm_num) (by omega)) hle)
    simp [hj]
  | false =>
    have hall : ∀ i, j ≤ i → m0.testBit i = false := by
      intro i hij
      by_cases hbig : i < 64
      · cases hmt : m0.testBit i with
        | false => rfl
        | true =>
          exfalso
          have hex : ∃ d, d < 64 ∧ m0.testBit (j + d) = true :=
            ⟨i - j, by omega, by rw [show j + (i - j) = i by omega]; exact hmt⟩
          have htrue := (hx j).mpr hex
          rw [hbt] at htrue
          simp at htrue
      · push_neg at hbig
        apply Nat.testBit_lt_two_pow
        calc m0 < 2 ^ 63 := hm
          _ ≤ 2 ^ i := Nat.pow_le_pow_right (by norm_num) (by omega)
    have hmod : m0 % 2 ^ j = m0 := by
      apply Nat.eq_of_testBit_eq
      intro t
      rw [Nat.testBit_mod_two_pow]
      by_cases ht : t < j
      · simp [ht]
      · simp [ht, hall t (by omega)]
    have hlow : m0 < 2 ^ j := by
      rw [← hmod]
      exact Nat.mod_lt _ (Nat.pos_pow_of_pos _ (by norm_num))
    have hsz : Nat.size m0 ≤ j := Nat.size_le.mpr hlow
    symm
    simp only [decide_eq_false_iff_not]
    omega

/-- For `1 ≤ n ≤ 2^63`, `GetNextPow2 n` is exactly `2 ^ size (n - 1)`. -/
theorem GetNextPow2_eq (n : Nat) (h1 : 1 ≤ n) (h2 : n ≤ 2 ^ 63) :
    GetNextPow2 n = 2 ^ Nat.size (n - 1) := by
  have h64 : (2 : Nat) ^ 64 = 18446744073709551616 := by norm_num
  have h63 : (2 : Nat) ^ 63 = 9223372036854775808 := by norm_num
  have e1 : (n + (2 ^ 64 - 1)) % 2 ^ 64 = n - 1 := by omega
  have hmlt : n - 1 < 2 ^ 63 := by omega
  have w1 := window_step (show (2 : Nat) = 2 * 1 by norm_num) (window_one (n - 1))
  have w2 := window_step (show (4 : Nat) = 2 * 2 by norm_num) w1
  have w4 := window_step (show (8 : Nat) = 2 * 4 by norm_num) w2
  have w8 := window_step (show (16 : Nat) = 2 * 8 by norm_num) w4
  have w16 := window_step (show (32 : Nat) = 2 * 16 by norm_num) w8
  have w32 := window_step (show (64 : Nat) = 2 * 32 by norm_num) w16
  have hXeq := smear64_eq (n - 1) _ hmlt w32
  unfold GetNextPow2
  dsimp only
  rw [e1, hXeq]
  have hsz : Nat.size (n - 1) ≤ 63 := Nat.size_le.mpr (by omega)
  have hub : 2 ^ Nat.size (n - 1) ≤ 2 ^ 63 :=
    Nat.pow_le_pow_right (by norm_num) hsz
  have hpos : 1 ≤ 2 ^ Nat.size (n - 1) := Nat.pos_pow_of_pos _ (by norm_num)
  omega

/-- C8, amended: for every requested element count `n` with `1 ≤ n ≤ 2^63`
(the claim fails at `n = 0` and for counts above `2^63`, where the 64-bit
arithmetic wraps), `GetNextPow2 n` is a power of two at least `n`, the
filter has that many buckets, and its mask is the bucket count minus one. -/
theorem C8_amended (n bucketSize : Nat) (h1 : 1 ≤ n) (h2 : n ≤ 2 ^ 63) :
    (∃ k, GetNextPow2 n = 2 ^ k) ∧ n ≤ GetNextPow2 n ∧
      (NewFilter n bucketSize).Buckets.length = GetNextPow2 n ∧
      (NewFilter n bucketSize).BucketIndexMask = GetNextPow2 n - 1 := by
  have h64 : (2 : Nat) ^ 64 = 18446744073709551616 := by norm_num
  have h63 : (2 : Nat) ^ 63 = 9223372036854775808 := by norm_num
  have heq := GetNextPow2_eq n h1 h2
  have hsz : Nat.size (n - 1) ≤ 63 := Nat.size_le.mpr (by omega)
  have hub : 2 ^ Nat.size (n - 1) ≤ 2 ^ 63 :=
    Nat.pow_le_pow_right (by norm_num) hsz
  have hpos : 1 ≤ 2 ^ Nat.size (n - 1) := Nat.pos_pow_of_pos _ (by norm_num)
  refine ⟨⟨Nat.size (n - 1), heq⟩, ?_, ?_, ?_⟩
  · rw [heq]
    have := Nat.lt_size_self (n - 1)
    omega
  · show (List.replicate (GetNextPow2 n) (NewBucket bucketSize)).length =
      GetNextPow2 n
    simp
  · show (GetNextPow2 n + (2 ^ 64 - 1)) % 2 ^ 64 = GetNextPow2 n - 1
    rw [heq]
    omega

/-- Witness for the amended C8 at `n = 5`: `GetNextPow2 5 = 8`. -/
theorem C8_witness :
    (∃ k, GetNextPow2 5 = 2 ^ k) ∧ 5 ≤ GetNextPow2 5 ∧
      (NewFilter 5 4).Buckets.length = GetNextPow2 5 ∧
      (NewFilter 5 4).BucketIndexMask = GetNextPow2 5 - 1 :=
  C8_amended 5 4 (by decide) (by norm_num)

end Cuckoo
